import Mathlib

/-!
Verification of the senate web-scraper script.

The script is a linear pipeline: fetch links and per-bill JSON
(get_links / get_single_vote), project the JSON records to a table of
(sponsor, cosponsor list, bill id) rows (filter_json_to_frame), and turn
that table into a vertex list and an edge list for a chord chart
(create_vertex_and_chord_lists).

The embedding below models Python strings as Lean String (code-point
lexicographic order on both sides), Python lists as List, Python dicts
loaded from JSON as association lists, and raised exceptions as Option
failure (none).  DataFrames only ever carry the three projected columns,
so the table is a List of three-field rows.
-/

/-- Numeric value of a list of decimal digit characters, most significant
first (the value Python int() gives a string of ASCII digits). -/
def digitsVal (cs : List Char) : ℕ :=
  cs.foldl (fun n c => 10 * n + (c.toNat - 48)) 0

/-- Embedding of Python int(tok) for the tokens the sort key feeds it:
defined exactly on non-empty all-digit tokens.  (PEP-515 underscore
grouping and non-ASCII digits are not modelled; no label in scope uses
them.) -/
def pyIntDigits? (cs : List Char) : Option ℕ :=
  if !cs.isEmpty && cs.all Char.isDigit then some (digitsVal cs) else none

/-- The partition of the label at its first space, first component: the
text of the label up to its first space, or the whole label when it has
no space. -/
def pyTok (item : String) : List Char :=
  item.data.takeWhile (fun c => c != ' ')

/-- The sort key lambda of create_vertex_and_chord_lists: the int value of
the text up to the first space when the first character of the item is a
digit, else float inf, paired with the item itself.  Outer none: the key
raises, either indexing item at 0 on an empty string, or calling int on a
non-numeric digit-led token.  some of some n: numeric first component n.
some of none: float inf first component. -/
def labelKey? (item : String) : Option (Option ℕ) :=
  match item.data with
  | [] => none
  | c :: _ => if c.isDigit then (pyIntDigits? (pyTok item)).map some else some none

/-- Code-point lexicographic order on character lists: the Python string
comparison, which compares strings by code point, left to right, with a
proper prefix ordered before its extensions. -/
def lexLE : List Char → List Char → Bool
  | [], _ => true
  | _ :: _, [] => false
  | c :: cs, d :: ds =>
    decide (c.toNat < d.toNat) || (decide (c.toNat = d.toNat) && lexLE cs ds)

/-- Python string comparison a <= b. -/
def strLE (a b : String) : Bool := lexLE a.data b.data

/-- Lexicographic comparison of two key tuples (first component, item),
where a none first component is float inf, above every number. -/
def keyCompare (ka kb : Option ℕ) (a b : String) : Bool :=
  match ka, kb with
  | some m, some n => decide (m < n) || (decide (m = n) && strLE a b)
  | some _, none => true
  | none, some _ => false
  | none, none => strLE a b

/-- The total comparison the script sorts labels by.  On labels whose key
is defined it is exactly the Python tuple comparison; on a label whose key
raises it behaves as float inf; such labels never reach a sort because
sortLabels fails first (see sortLabels). -/
def labelLE (a b : String) : Bool :=
  keyCompare (labelKey? a).join (labelKey? b).join a b

/-- Modelled from the Label ordering rule of the spec, section 3: the
numeric key is the label text up to the first space when that text is numeric,
and absent otherwise. -/
def specKeyNum? (s : String) : Option ℕ :=
  pyIntDigits? (pyTok s)

/-- Modelled from the Label ordering rule of the spec: numeric-keyed labels
ascending by key, ties and non-numeric labels alphabetically, every
non-numeric label after every numeric one. -/
def specLabelLE (a b : String) : Bool :=
  keyCompare (specKeyNum? a) (specKeyNum? b) a b

theorem lexLE_total : ∀ cs ds : List Char, lexLE cs ds = true ∨ lexLE ds cs = true
  | [], _ => Or.inl rfl
  | _ :: _, [] => Or.inr rfl
  | c :: cs, d :: ds => by
    simp only [lexLE, Bool.or_eq_true, decide_eq_true_eq, Bool.and_eq_true]
    rcases Nat.lt_trichotomy c.toNat d.toNat with h | h | h
    · exact Or.inl (Or.inl h)
    · rcases lexLE_total cs ds with ih | ih
      · exact Or.inl (Or.inr ⟨h, ih⟩)
      · exact Or.inr (Or.inr ⟨h.symm, ih⟩)
    · exact Or.inr (Or.inl h)

theorem lexLE_trans :
    ∀ as bs cs : List Char, lexLE as bs = true → lexLE bs cs = true → lexLE as cs = true
  | [], _, _, _, _ => rfl
  | _ :: _, [], _, h, _ => by simp [lexLE] at h
  | _ :: _, _ :: _, [], _, h2 => by simp [lexLE] at h2
  | a :: as, b :: bs, c :: cs, h1, h2 => by
    simp only [lexLE, Bool.or_eq_true, decide_eq_true_eq, Bool.and_eq_true] at h1 h2 ⊢
    rcases h1 with h1 | ⟨e1, t1⟩
    · rcases h2 with h2 | ⟨e2, t2⟩
      · exact Or.inl (by omega)
      · exact Or.inl (by omega)
    · rcases h2 with h2 | ⟨e2, t2⟩
      · exact Or.inl (by omega)
      · exact Or.inr ⟨by omega, lexLE_trans as bs cs t1 t2⟩

theorem keyCompare_total (ka kb : Option ℕ) (a b : String) :
    keyCompare ka kb a b = true ∨ keyCompare kb ka b a = true := by
  cases ka with
  | none =>
    cases kb with
    | none => exact lexLE_total a.data b.data
    | some n => exact Or.inr rfl
  | some m =>
    cases kb with
    | none => exact Or.inl rfl
    | some n =>
      simp only [keyCompare, Bool.or_eq_true, decide_eq_true_eq, Bool.and_eq_true]
      rcases Nat.lt_trichotomy m n with h | h | h
      · exact Or.inl (Or.inl h)
      · rcases lexLE_total a.data b.data with ih | ih
        · exact Or.inl (Or.inr ⟨h, ih⟩)
        · exact Or.inr (Or.inr ⟨h.symm, ih⟩)
      · exact Or.inr (Or.inl h)

theorem keyCompare_trans (ka kb kc : Option ℕ) (a b c : String)
    (h1 : keyCompare ka kb a b = true) (h2 : keyCompare kb kc b c = true) :
    keyCompare ka kc a c = true := by
  cases ka <;> cases kb <;> cases kc <;> simp [keyCompare] at h1 h2 ⊢
  · exact lexLE_trans a.data b.data c.data h1 h2
  · rcases h1 with h1 | ⟨e1, t1⟩ <;> rcases h2 with h2 | ⟨e2, t2⟩
    · exact Or.inl (by omega)
    · exact Or.inl (by omega)
    · exact Or.inl (by omega)
    · exact Or.inr ⟨by omega, lexLE_trans a.data b.data c.data t1 t2⟩

/-- The sort relation the script uses, as a Prop-valued relation for
List.insertionSort. -/
def LabelRel (a b : String) : Prop := labelLE a b = true

instance : DecidableRel LabelRel := fun a b => instDecidableEqBool (labelLE a b) true

instance : IsTotal String LabelRel :=
  ⟨fun a b => keyCompare_total (labelKey? a).join (labelKey? b).join a b⟩

instance : IsTrans String LabelRel :=
  ⟨fun a b c => keyCompare_trans (labelKey? a).join (labelKey? b).join (labelKey? c).join a b c⟩

theorem pyIntDigits?_cons_not_digit (c : Char) (t : List Char) (h : c.isDigit = false) :
    pyIntDigits? (c :: t) = none := by
  simp [pyIntDigits?, h]

/-- On a label whose key does not raise, the spec ordering key agrees with
the script key, with the float inf component read as none. -/
theorem specKeyNum?_eq_join (s : String) (h : labelKey? s ≠ none) :
    specKeyNum? s = (labelKey? s).join := by
  cases hd : s.data with
  | nil =>
    have hk : labelKey? s = none := by unfold labelKey?; rw [hd]
    exact absurd hk h
  | cons c rest =>
    have hk : labelKey? s =
        if c.isDigit then (pyIntDigits? (pyTok s)).map some else some none := by
      unfold labelKey?; rw [hd]
    by_cases hc : c.isDigit
    · rw [hk, if_pos hc]
      cases hp : pyIntDigits? (pyTok s) <;> simp [specKeyNum?, hp]
    · rw [hk, if_neg hc]
      show specKeyNum? s = none
      unfold specKeyNum? pyTok
      rw [hd]
      by_cases hsp : c = ' '
      · subst hsp; simp [List.takeWhile_cons, pyIntDigits?]
      · have hne : (c != ' ') = true := by simp [hsp]
        rw [List.takeWhile_cons, if_pos hne]
        exact pyIntDigits?_cons_not_digit c _ (by simp [hc])

/-- On labels whose keys do not raise, the script comparison is exactly
the Label ordering rule of the spec. -/
theorem labelLE_eq_specLabelLE (a b : String)
    (ha : labelKey? a ≠ none) (hb : labelKey? b ≠ none) :
    labelLE a b = specLabelLE a b := by
  unfold labelLE specLabelLE
  rw [specKeyNum?_eq_join a ha, specKeyNum?_eq_join b hb]

/-- Embedding of sorted(set(ls), key=...) as used three times by
create_vertex_and_chord_lists: Python evaluates the key on every element
(a raised key exception aborts the call), then sorts by the key tuple.
The key tuple ends with the item itself, so the comparison is an
antisymmetric total order and the sorted result is the unique
LabelRel-sorted permutation, which insertionSort computes. -/
def sortLabels (ls : List String) : Option (List String) :=
  if ls.all (fun l => (labelKey? l).isSome) then
    some (List.insertionSort LabelRel ls)
  else none

theorem sortLabels_eq_some (ls out : List String) (h : sortLabels ls = some out) :
    (∀ l ∈ ls, (labelKey? l).isSome) ∧ out = List.insertionSort LabelRel ls := by
  unfold sortLabels at h
  split at h
  · next hall =>
    refine ⟨fun l hl => List.all_eq_true.mp hall l hl, ?_⟩
    exact (Option.some.inj h).symm
  · exact Option.noConfusion h

theorem sortLabels_isSome_iff (ls : List String) :
    (sortLabels ls).isSome ↔ ∀ l ∈ ls, (labelKey? l).isSome := by
  unfold sortLabels
  split
  · next hall => simpa using fun l hl => List.all_eq_true.mp hall l hl
  · next hall => simpa using fun hf => hall (List.all_eq_true.mpr hf)

theorem sortLabels_perm (ls out : List String) (h : sortLabels ls = some out) :
    out.Perm ls := by
  rw [(sortLabels_eq_some ls out h).2]
  exact List.perm_insertionSort LabelRel ls

theorem sortLabels_sorted (ls out : List String) (h : sortLabels ls = some out) :
    out.Pairwise LabelRel := by
  rw [(sortLabels_eq_some ls out h).2]
  exact List.sorted_insertionSort LabelRel ls

/-- Embedding of Python list.index on the label list: index of the first
occurrence, none when the label is absent (Python raises ValueError). -/
def listIndex? (x : String) : List String → Option ℕ
  | [] => none
  | y :: ys => if y = x then some 0 else (listIndex? x ys).map (· + 1)

theorem listIndex?_isSome_iff (x : String) :
    ∀ l : List String, (listIndex? x l).isSome ↔ x ∈ l
  | [] => by simp [listIndex?]
  | y :: ys => by
    by_cases hy : y = x
    · subst hy; simp [listIndex?]
    · simp [listIndex?, hy, listIndex?_isSome_iff x ys, Ne.symm hy]

theorem listIndex?_lt_length (x : String) :
    ∀ (l : List String) (i : ℕ), listIndex? x l = some i → i < l.length
  | [], i, h => Option.noConfusion h
  | y :: ys, i, h => by
    unfold listIndex? at h
    split at h
    · cases h; simp
    · cases hi : listIndex? x ys with
      | none => rw [hi] at h; exact Option.noConfusion h
      | some j =>
        rw [hi] at h
        cases h
        have := listIndex?_lt_length x ys j hi
        simp only [List.length_cons]
        omega

/-- One row of the projected DataFrame: Sponsor, Cosponsor, Bill columns. -/
structure VoteRow where
  sponsor : String
  cosponsors : List String
  billId : String
deriving DecidableEq

/-- A vertex dict with fields group and name, one entry of the chart vertex
list. -/
structure Vertex where
  group : ℕ
  name : String
deriving DecidableEq

/-- A chord dict with fields source, target and value, one entry of the
edge list. -/
structure Edge where
  source : ℕ
  target : ℕ
  value : ℕ
deriving DecidableEq

/-- Inner loop of create_vertex_and_chord_lists over the co-sponsor list
of one row: for every co-sponsor, look up the sponsor index and the
co-sponsor index in union_labels and append one edge of value 1; a failed
lookup, a ValueError from list.index, aborts the call. -/
def edgesForRow (ul : List String) (sponsor : String) : List String → Option (List Edge)
  | [] => some []
  | x :: xs =>
    match listIndex? sponsor ul, listIndex? x ul, edgesForRow ul sponsor xs with
    | some s, some t, some rest => some ({ source := s, target := t, value := 1 } :: rest)
    | _, _, _ => none

/-- Outer loop of create_vertex_and_chord_lists over the table rows, in
row order, concatenating the edges of each row. -/
def buildEdges (ul : List String) : List VoteRow → Option (List Edge)
  | [] => some []
  | r :: rs =>
    match edgesForRow ul r.sponsor r.cosponsors, buildEdges ul rs with
    | some es, some rest => some (es ++ rest)
    | _, _ => none

/-- Embedding of create_vertex_and_chord_lists: flatten the Cosponsor
column into li; sort the deduplicated sponsor set (y_labels), the
deduplicated flattened co-sponsor set (x_labels), and the deduplicated
union set(x_labels + y_labels) (union_labels); build one vertex dict per
union label in that order; then for every row and every co-sponsor of the
row append one edge from union_labels.index lookups.  none models any
raised exception. -/
def create_vertex_and_chord_lists (d_frame : List VoteRow) :
    Option (List Vertex × List Edge) :=
  (sortLabels (d_frame.map VoteRow.sponsor).dedup).bind fun y_labels =>
  (sortLabels ((d_frame.map VoteRow.cosponsors).flatten).dedup).bind fun x_labels =>
  (sortLabels (x_labels ++ y_labels).dedup).bind fun union_labels =>
  (buildEdges union_labels d_frame).bind fun chord_list =>
  some (union_labels.map (fun label => { group := 0, name := label }), chord_list)

/-- Total form of the index lookup for stating results: the index of the
first occurrence, 0 when absent (the absent case never occurs in any edge
the script emits). -/
def pyIndex (ul : List String) (x : String) : ℕ :=
  (listIndex? x ul).getD 0

theorem edgesForRow_eq_some (ul : List String) (sp : String) :
    ∀ (cs : List String) (es : List Edge), edgesForRow ul sp cs = some es →
      es = cs.map (fun c =>
        { source := pyIndex ul sp, target := pyIndex ul c, value := 1 })
  | [], es, h => by cases h; rfl
  | x :: xs, es, h => by
    unfold edgesForRow at h
    cases hs : listIndex? sp ul with
    | none => rw [hs] at h; exact Option.noConfusion h
    | some s =>
      cases ht : listIndex? x ul with
      | none => rw [hs, ht] at h; exact Option.noConfusion h
      | some t =>
        cases hr : edgesForRow ul sp xs with
        | none => rw [hs, ht, hr] at h; exact Option.noConfusion h
        | some rest =>
          rw [hs, ht, hr] at h
          cases h
          simp only [List.map_cons, List.cons.injEq]
          refine ⟨?_, edgesForRow_eq_some ul sp xs rest hr⟩
          simp [pyIndex, hs, ht]

theorem edgesForRow_bounds (ul : List String) (sp : String) :
    ∀ (cs : List String) (es : List Edge), edgesForRow ul sp cs = some es →
      ∀ e ∈ es, e.source < ul.length ∧ e.target < ul.length ∧ e.value = 1
  | [], es, h => by cases h; simp
  | x :: xs, es, h => by
    unfold edgesForRow at h
    cases hs : listIndex? sp ul with
    | none => rw [hs] at h; exact Option.noConfusion h
    | some s =>
      cases ht : listIndex? x ul with
      | none => rw [hs, ht] at h; exact Option.noConfusion h
      | some t =>
        cases hr : edgesForRow ul sp xs with
        | none => rw [hs, ht, hr] at h; exact Option.noConfusion h
        | some rest =>
          rw [hs, ht, hr] at h
          cases h
          intro e he
          rcases List.mem_cons.mp he with he | he
          · subst he
            exact ⟨listIndex?_lt_length sp ul s hs, listIndex?_lt_length x ul t ht, rfl⟩
          · exact edgesForRow_bounds ul sp xs rest hr e he

theorem edgesForRow_isSome (ul : List String) (sp : String) (hsp : sp ∈ ul) :
    ∀ cs : List String, (∀ c ∈ cs, c ∈ ul) → (edgesForRow ul sp cs).isSome
  | [], _ => rfl
  | x :: xs, hcs => by
    obtain ⟨s, hs⟩ := Option.isSome_iff_exists.mp ((listIndex?_isSome_iff sp ul).mpr hsp)
    obtain ⟨t, ht⟩ := Option.isSome_iff_exists.mp
      ((listIndex?_isSome_iff x ul).mpr (hcs x (List.mem_cons_self x xs)))
    obtain ⟨rest, hr⟩ := Option.isSome_iff_exists.mp
      (edgesForRow_isSome ul sp hsp xs (fun c hc => hcs c (List.mem_cons_of_mem x hc)))
    unfold edgesForRow
    rw [hs, ht, hr]
    rfl

theorem buildEdges_eq_some (ul : List String) :
    ∀ (rows : List VoteRow) (es : List Edge), buildEdges ul rows = some es →
      es = rows.flatMap (fun r => r.cosponsors.map (fun c =>
        { source := pyIndex ul r.sponsor, target := pyIndex ul c, value := 1 }))
  | [], es, h => by cases h; rfl
  | r :: rs, es, h => by
    unfold buildEdges at h
    cases he : edgesForRow ul r.sponsor r.cosponsors with
    | none => rw [he] at h; exact Option.noConfusion h
    | some res =>
      cases hb : buildEdges ul rs with
      | none => rw [he, hb] at h; exact Option.noConfusion h
      | some rest =>
        rw [he, hb] at h
        cases h
        rw [List.flatMap_cons, edgesForRow_eq_some ul r.sponsor r.cosponsors res he,
          buildEdges_eq_some ul rs rest hb]

theorem buildEdges_bounds (ul : List String) :
    ∀ (rows : List VoteRow) (es : List Edge), buildEdges ul rows = some es →
      ∀ e ∈ es, e.source < ul.length ∧ e.target < ul.length ∧ e.value = 1
  | [], es, h => by cases h; simp
  | r :: rs, es, h => by
    unfold buildEdges at h
    cases he : edgesForRow ul r.sponsor r.cosponsors with
    | none => rw [he] at h; exact Option.noConfusion h
    | some res =>
      cases hb : buildEdges ul rs with
      | none => rw [he, hb] at h; exact Option.noConfusion h
      | some rest =>
        rw [he, hb] at h
        cases h
        intro e hme
        rcases List.mem_append.mp hme with hme | hme
        · exact edgesForRow_bounds ul r.sponsor r.cosponsors res he e hme
        · exact buildEdges_bounds ul rs rest hb e hme

theorem buildEdges_isSome (ul : List String) :
    ∀ rows : List VoteRow,
      (∀ r ∈ rows, r.sponsor ∈ ul ∧ ∀ c ∈ r.cosponsors, c ∈ ul) →
      (buildEdges ul rows).isSome
  | [], _ => rfl
  | r :: rs, h => by
    obtain ⟨hsp, hcs⟩ := h r (List.mem_cons_self r rs)
    obtain ⟨res, he⟩ := Option.isSome_iff_exists.mp
      (edgesForRow_isSome ul r.sponsor hsp r.cosponsors hcs)
    obtain ⟨rest, hb⟩ := Option.isSome_iff_exists.mp
      (buildEdges_isSome ul rs (fun q hq => h q (List.mem_cons_of_mem r hq)))
    unfold buildEdges
    rw [he, hb]
    rfl

/-- Success shape of create_vertex_and_chord_lists: when it returns a pair,
the three sorts and the edge construction all succeeded, the vertex list is
the sorted union list with group 0 everywhere, and the edge list is the
built chord list. -/
theorem create_some_elim (rows : List VoteRow) (vs : List Vertex) (es : List Edge)
    (h : create_vertex_and_chord_lists rows = some (vs, es)) :
    ∃ y x ul, sortLabels (rows.map VoteRow.sponsor).dedup = some y ∧
      sortLabels ((rows.map VoteRow.cosponsors).flatten).dedup = some x ∧
      sortLabels (x ++ y).dedup = some ul ∧
      buildEdges ul rows = some es ∧
      vs = ul.map (fun label => { group := 0, name := label }) := by
  unfold create_vertex_and_chord_lists at h
  simp only [Option.bind_eq_some, Option.some.injEq, Prod.mk.injEq] at h
  obtain ⟨y, h1, x, h2, ul, h3, cl, h4, hvs, hes⟩ := h
  exact ⟨y, x, ul, h1, h2, h3, by rw [h4, hes], hvs.symm⟩

/-- Converse of create_some_elim: the three sorted lists and the chord list
determine the script result. -/
theorem create_some_intro (rows : List VoteRow) (y x ul : List String) (cl : List Edge)
    (h1 : sortLabels (rows.map VoteRow.sponsor).dedup = some y)
    (h2 : sortLabels ((rows.map VoteRow.cosponsors).flatten).dedup = some x)
    (h3 : sortLabels (x ++ y).dedup = some ul)
    (h4 : buildEdges ul rows = some cl) :
    create_vertex_and_chord_lists rows =
      some (ul.map (fun label => { group := 0, name := label }), cl) := by
  unfold create_vertex_and_chord_lists
  rw [h1, Option.some_bind, h2, Option.some_bind, h3, Option.some_bind, h4, Option.some_bind]

/-- Membership in the union label list is membership in the sponsor column
or in the flattened co-sponsor column. -/
theorem mem_union_labels (rows : List VoteRow) (y x ul : List String) (l : String)
    (h1 : sortLabels (rows.map VoteRow.sponsor).dedup = some y)
    (h2 : sortLabels ((rows.map VoteRow.cosponsors).flatten).dedup = some x)
    (h3 : sortLabels (x ++ y).dedup = some ul) :
    l ∈ ul ↔ l ∈ rows.map VoteRow.sponsor ∨ l ∈ (rows.map VoteRow.cosponsors).flatten := by
  rw [(sortLabels_perm _ _ h3).mem_iff, List.mem_dedup, List.mem_append,
    (sortLabels_perm _ _ h2).mem_iff, List.mem_dedup,
    (sortLabels_perm _ _ h1).mem_iff, List.mem_dedup, or_comm]

/-- Every label in the union list passed the key guard of its sort. -/
theorem union_labels_keys (y x ul : List String)
    (h3 : sortLabels (x ++ y).dedup = some ul) :
    ∀ l ∈ ul, (labelKey? l).isSome := fun l hl =>
  (sortLabels_eq_some _ _ h3).1 l ((sortLabels_perm _ _ h3).mem_iff.mp hl)

/-- Claim C1: for every input table the vertex list has exactly one vertex
per label in the deduplicated union of all sponsor and co-sponsor labels,
ordered by the Label ordering rule, each with group 0. -/
theorem vertex_list_correct (rows : List VoteRow) (vs : List Vertex) (es : List Edge)
    (h : create_vertex_and_chord_lists rows = some (vs, es)) :
    (∀ v ∈ vs, v.group = 0) ∧
    (vs.map Vertex.name).Nodup ∧
    (∀ l, l ∈ vs.map Vertex.name ↔
      l ∈ rows.map VoteRow.sponsor ∨ l ∈ (rows.map VoteRow.cosponsors).flatten) ∧
    (vs.map Vertex.name).Pairwise (fun a b => specLabelLE a b = true) := by
  obtain ⟨y, x, ul, h1, h2, h3, h4, h5⟩ := create_some_elim rows vs es h
  have hnames : vs.map Vertex.name = ul := by
    rw [h5, List.map_map]
    exact List.map_id ul
  refine ⟨?_, ?_, ?_, ?_⟩
  · intro v hv
    rw [h5] at hv
    obtain ⟨l, _, rfl⟩ := List.mem_map.mp hv
    rfl
  · rw [hnames]
    exact ((sortLabels_perm _ _ h3).nodup_iff).mpr (List.nodup_dedup _)
  · intro l
    rw [hnames]
    exact mem_union_labels rows y x ul l h1 h2 h3
  · rw [hnames]
    have hp := sortLabels_sorted _ _ h3
    refine List.Pairwise.imp_of_mem ?_ hp
    intro a b ha hb hr
    have hka := union_labels_keys y x ul h3 a ha
    have hkb := union_labels_keys y x ul h3 b hb
    rw [← labelLE_eq_specLabelLE a b (Option.isSome_iff_ne_none.mp hka)
      (Option.isSome_iff_ne_none.mp hkb)]
    exact hr

/-- Witness for vertex_list_correct on a one-row table. -/
theorem vertex_list_correct_witness :
    (∀ v ∈ ([⟨0, "1 Alpha"⟩, ⟨0, "2 Beta"⟩] : List Vertex), v.group = 0) ∧
    (([⟨0, "1 Alpha"⟩, ⟨0, "2 Beta"⟩] : List Vertex).map Vertex.name).Nodup ∧
    (∀ l, l ∈ ([⟨0, "1 Alpha"⟩, ⟨0, "2 Beta"⟩] : List Vertex).map Vertex.name ↔
      l ∈ ([⟨"1 Alpha", ["2 Beta"], "s1"⟩] : List VoteRow).map VoteRow.sponsor ∨
      l ∈ (([⟨"1 Alpha", ["2 Beta"], "s1"⟩] : List VoteRow).map VoteRow.cosponsors).flatten) ∧
    (([⟨0, "1 Alpha"⟩, ⟨0, "2 Beta"⟩] : List Vertex).map Vertex.name).Pairwise
      (fun a b => specLabelLE a b = true) :=
  vertex_list_correct [⟨"1 Alpha", ["2 Beta"], "s1"⟩] [⟨0, "1 Alpha"⟩, ⟨0, "2 Beta"⟩]
    [⟨0, 1, 1⟩] (by decide)

/-- Claim C2: the edge list is exactly one edge with value 1 per
(sponsor, co-sponsor) pair, duplicates kept, appended in record order then
co-sponsor order, so its length is the total pair count. -/
theorem edge_list_correct (rows : List VoteRow) (vs : List Vertex) (es : List Edge)
    (h : create_vertex_and_chord_lists rows = some (vs, es)) :
    es = rows.flatMap (fun r => r.cosponsors.map (fun c =>
        { source := pyIndex (vs.map Vertex.name) r.sponsor,
          target := pyIndex (vs.map Vertex.name) c, value := 1 })) ∧
    es.length = (rows.map (fun r => r.cosponsors.length)).sum ∧
    (∀ e ∈ es, e.value = 1) := by
  obtain ⟨y, x, ul, h1, h2, h3, h4, h5⟩ := create_some_elim rows vs es h
  have hnames : vs.map Vertex.name = ul := by
    rw [h5, List.map_map]
    exact List.map_id ul
  have hform := buildEdges_eq_some ul rows es h4
  rw [hnames]
  refine ⟨hform, ?_, ?_⟩
  · rw [hform, List.length_flatMap]
    simp only [Function.comp_def, List.length_map]
  · intro e he
    exact (buildEdges_bounds ul rows es h4 e he).2.2

/-- Witness for edge_list_correct on a one-row table. -/
theorem edge_list_correct_witness :
    ([⟨0, 1, 1⟩] : List Edge) =
      ([⟨"1 Alpha", ["2 Beta"], "s1"⟩] : List VoteRow).flatMap (fun r =>
        r.cosponsors.map (fun c =>
          { source := pyIndex (([⟨0, "1 Alpha"⟩, ⟨0, "2 Beta"⟩] : List Vertex).map Vertex.name)
              r.sponsor,
            target := pyIndex (([⟨0, "1 Alpha"⟩, ⟨0, "2 Beta"⟩] : List Vertex).map Vertex.name) c,
            value := 1 })) ∧
    ([⟨0, 1, 1⟩] : List Edge).length =
      (([⟨"1 Alpha", ["2 Beta"], "s1"⟩] : List VoteRow).map (fun r => r.cosponsors.length)).sum ∧
    (∀ e ∈ ([⟨0, 1, 1⟩] : List Edge), e.value = 1) :=
  edge_list_correct [⟨"1 Alpha", ["2 Beta"], "s1"⟩] [⟨0, "1 Alpha"⟩, ⟨0, "2 Beta"⟩]
    [⟨0, 1, 1⟩] (by decide)

/-- Claim C3: every edge indexes inside the vertex list, and the index
lookup branch cannot fail: the builder succeeds exactly when the sort key
of every label is defined, so a label absent from union_labels is unreachable. -/
theorem edge_indices_valid :
    (∀ (rows : List VoteRow) (vs : List Vertex) (es : List Edge),
      create_vertex_and_chord_lists rows = some (vs, es) →
      ∀ e ∈ es, e.source < vs.length ∧ e.target < vs.length) ∧
    (∀ rows : List VoteRow, (create_vertex_and_chord_lists rows).isSome ↔
      ∀ l, (l ∈ rows.map VoteRow.sponsor ∨ l ∈ (rows.map VoteRow.cosponsors).flatten) →
        (labelKey? l).isSome) := by
  constructor
  · intro rows vs es h e he
    obtain ⟨y, x, ul, h1, h2, h3, h4, h5⟩ := create_some_elim rows vs es h
    have hlen : vs.length = ul.length := by rw [h5, List.length_map]
    have hb := buildEdges_bounds ul rows es h4 e he
    rw [hlen]
    exact ⟨hb.1, hb.2.1⟩
  · intro rows
    constructor
    · intro hsome l hl
      obtain ⟨⟨vs, es⟩, hp⟩ := Option.isSome_iff_exists.mp hsome
      obtain ⟨y, x, ul, h1, h2, h3, _, _⟩ := create_some_elim rows vs es hp
      rcases hl with hl | hl
      · exact (sortLabels_eq_some _ _ h1).1 l (List.mem_dedup.mpr hl)
      · exact (sortLabels_eq_some _ _ h2).1 l (List.mem_dedup.mpr hl)
    · intro hkeys
      obtain ⟨y, h1⟩ := Option.isSome_iff_exists.mp ((sortLabels_isSome_iff _).mpr
        (fun l hl => hkeys l (Or.inl (List.mem_dedup.mp hl))))
      obtain ⟨x, h2⟩ := Option.isSome_iff_exists.mp ((sortLabels_isSome_iff _).mpr
        (fun l hl => hkeys l (Or.inr (List.mem_dedup.mp hl))))
      have hunion : ∀ l ∈ (x ++ y).dedup, (labelKey? l).isSome := by
        intro l hl
        rcases List.mem_append.mp (List.mem_dedup.mp hl) with hl | hl
        · exact hkeys l (Or.inr (List.mem_dedup.mp ((sortLabels_perm _ _ h2).mem_iff.mp hl)))
        · exact hkeys l (Or.inl (List.mem_dedup.mp ((sortLabels_perm _ _ h1).mem_iff.mp hl)))
      obtain ⟨ul, h3⟩ := Option.isSome_iff_exists.mp ((sortLabels_isSome_iff _).mpr hunion)
      have hmem : ∀ r ∈ rows, r.sponsor ∈ ul ∧ ∀ c ∈ r.cosponsors, c ∈ ul := by
        intro r hr
        constructor
        · exact (mem_union_labels rows y x ul r.sponsor h1 h2 h3).mpr
            (Or.inl (List.mem_map.mpr ⟨r, hr, rfl⟩))
        · intro c hc
          exact (mem_union_labels rows y x ul c h1 h2 h3).mpr
            (Or.inr (List.mem_flatten.mpr ⟨r.cosponsors, List.mem_map.mpr ⟨r, hr, rfl⟩, hc⟩))
      obtain ⟨cl, h4⟩ := Option.isSome_iff_exists.mp (buildEdges_isSome ul rows hmem)
      rw [create_some_intro rows y x ul cl h1 h2 h3 h4]
      rfl

/-- Witness for edge_indices_valid, first conjunct, on a one-row table. -/
theorem edge_indices_valid_witness :
    (⟨0, 1, 1⟩ : Edge).source < ([⟨0, "1 Alpha"⟩, ⟨0, "2 Beta"⟩] : List Vertex).length ∧
    (⟨0, 1, 1⟩ : Edge).target < ([⟨0, "1 Alpha"⟩, ⟨0, "2 Beta"⟩] : List Vertex).length :=
  edge_indices_valid.1 [⟨"1 Alpha", ["2 Beta"], "s1"⟩] [⟨0, "1 Alpha"⟩, ⟨0, "2 Beta"⟩]
    [⟨0, 1, 1⟩] (by decide) ⟨0, 1, 1⟩ (by decide)

/-- Claim C5: the documented two-record scenario produces exactly the
documented vertex and edge lists. -/
theorem end_to_end_example :
    create_vertex_and_chord_lists
      [⟨"1 Alpha", ["2 Beta"], "s1"⟩, ⟨"2 Beta", ["1 Alpha", "3 Gamma"], "s2"⟩] =
      some ([⟨0, "1 Alpha"⟩, ⟨0, "2 Beta"⟩, ⟨0, "3 Gamma"⟩],
        [⟨0, 1, 1⟩, ⟨1, 0, 1⟩, ⟨1, 2, 1⟩]) := by
  decide

/-- Claim C8: the graph list builder is a pure function of its input: two
runs on the same table return identical vertex and edge lists. -/
theorem builder_deterministic (rows : List VoteRow) (vs₁ vs₂ : List Vertex)
    (es₁ es₂ : List Edge)
    (h1 : create_vertex_and_chord_lists rows = some (vs₁, es₁))
    (h2 : create_vertex_and_chord_lists rows = some (vs₂, es₂)) :
    vs₁ = vs₂ ∧ es₁ = es₂ :=
  Prod.ext_iff.mp (Option.some.inj (h1.symm.trans h2))

/-- Witness for builder_deterministic on a one-row table. -/
theorem builder_deterministic_witness :
    ([⟨0, "1 Alpha"⟩, ⟨0, "2 Beta"⟩] : List Vertex) = [⟨0, "1 Alpha"⟩, ⟨0, "2 Beta"⟩] ∧
    ([⟨0, 1, 1⟩] : List Edge) = [⟨0, 1, 1⟩] :=
  builder_deterministic [⟨"1 Alpha", ["2 Beta"], "s1"⟩]
    [⟨0, "1 Alpha"⟩, ⟨0, "2 Beta"⟩] [⟨0, "1 Alpha"⟩, ⟨0, "2 Beta"⟩]
    [⟨0, 1, 1⟩] [⟨0, 1, 1⟩] (by decide) (by decide)

/-- Claim C10: self-loops are not filtered: a record whose sponsor also
appears among its co-sponsors yields an edge with equal source and target
and value 1. -/
theorem self_loop_edges (rows : List VoteRow) (vs : List Vertex) (es : List Edge)
    (r : VoteRow) (h : create_vertex_and_chord_lists rows = some (vs, es))
    (hr : r ∈ rows) (hself : r.sponsor ∈ r.cosponsors) :
    ∃ e ∈ es, e.source = e.target ∧ e.value = 1 := by
  obtain ⟨y, x, ul, h1, h2, h3, h4, h5⟩ := create_some_elim rows vs es h
  rw [buildEdges_eq_some ul rows es h4]
  refine ⟨{ source := pyIndex ul r.sponsor, target := pyIndex ul r.sponsor, value := 1 },
    ?_, rfl, rfl⟩
  exact List.mem_flatMap.mpr ⟨r, hr, List.mem_map.mpr ⟨r.sponsor, hself, rfl⟩⟩

/-- Witness for self_loop_edges on a table whose single record sponsors
itself. -/
theorem self_loop_edges_witness :
    ∃ e ∈ ([⟨0, 0, 1⟩] : List Edge), e.source = e.target ∧ e.value = 1 :=
  self_loop_edges [⟨"1 Alpha", ["1 Alpha"], "s1"⟩] [⟨0, "1 Alpha"⟩] [⟨0, 0, 1⟩]
    ⟨"1 Alpha", ["1 Alpha"], "s1"⟩ (by decide) (by decide) (by decide)

/-- A label whose spec key is numeric has a defined script key with the same
numeric component: its first character is then a digit. -/
theorem labelKey?_of_specKeyNum (s : String) (m : ℕ) (h : specKeyNum? s = some m) :
    labelKey? s = some (some m) := by
  unfold specKeyNum? at h
  have htok : ¬pyTok s = [] ∧ (pyTok s).all Char.isDigit = true := by
    unfold pyIntDigits? at h
    by_cases hc : (!(pyTok s).isEmpty && (pyTok s).all Char.isDigit) = true
    · rw [Bool.and_eq_true] at hc
      refine ⟨fun hnil => ?_, hc.2⟩
      rw [hnil] at hc
      simp at hc
    · rw [if_neg hc] at h
      exact Option.noConfusion h
  cases hd : s.data with
  | nil =>
    refine absurd ?_ htok.1
    unfold pyTok
    rw [hd]
    rfl
  | cons c rest =>
    have htw : pyTok s = List.takeWhile (fun ch => ch != ' ') (c :: rest) := by
      unfold pyTok
      rw [hd]
    have hcsp : (c != ' ') = true := by
      by_contra hcs
      have hfalse : (c != ' ') = false := by
        cases hb : (c != ' ')
        · rfl
        · exact absurd hb hcs
      refine htok.1 ?_
      rw [htw, List.takeWhile_cons, hfalse]
      rfl
    have hhead : pyTok s = c :: List.takeWhile (fun ch => ch != ' ') rest := by
      rw [htw, List.takeWhile_cons, hcsp]
      rfl
    have hcd : c.isDigit = true := by
      refine List.all_eq_true.mp htok.2 c ?_
      rw [hhead]
      exact List.mem_cons_self c _
    have hk : labelKey? s =
        if c.isDigit then (pyIntDigits? (pyTok s)).map some else some none := by
      unfold labelKey?
      rw [hd]
    rw [hk, if_pos hcd, h]
    rfl

/-- A label whose script key is defined but whose spec key is not numeric
carries the float inf key. -/
theorem labelKey?_inf_of_specKeyNum_none (s : String) (hne : labelKey? s ≠ none)
    (h : specKeyNum? s = none) : labelKey? s = some none := by
  have hj := specKeyNum?_eq_join s hne
  rw [h] at hj
  cases hk : labelKey? s with
  | none => exact absurd hk hne
  | some k =>
    cases k with
    | none => rfl
    | some m =>
      rw [hk] at hj
      exact Option.noConfusion hj

/-- Claim C4: the label ordering rule.  A numeric-token label sorts by its
token value ascending (ties alphabetical); every label without a numeric
token sorts after all numeric-token labels; non-numeric labels sort
alphabetically among themselves; and the documented example list sorts to
itself. -/
theorem label_ordering_rule :
    (∀ a b m n, specKeyNum? a = some m → specKeyNum? b = some n →
      labelLE a b = (decide (m < n) || (decide (m = n) && strLE a b))) ∧
    (∀ a b m, specKeyNum? a = some m → specKeyNum? b = none → labelKey? b ≠ none →
      labelLE a b = true ∧ labelLE b a = false) ∧
    (∀ a b, specKeyNum? a = none → specKeyNum? b = none →
      labelKey? a ≠ none → labelKey? b ≠ none → labelLE a b = strLE a b) ∧
    sortLabels ["3 Smith", "10 Jones", "Abel"] = some ["3 Smith", "10 Jones", "Abel"] := by
  refine ⟨?_, ?_, ?_, by decide⟩
  · intro a b m n ha hb
    unfold labelLE
    rw [labelKey?_of_specKeyNum a m ha, labelKey?_of_specKeyNum b n hb]
    rfl
  · intro a b m ha hb hbne
    unfold labelLE
    rw [labelKey?_of_specKeyNum a m ha, labelKey?_inf_of_specKeyNum_none b hbne hb]
    exact ⟨rfl, rfl⟩
  · intro a b ha hb hane hbne
    unfold labelLE
    rw [labelKey?_inf_of_specKeyNum_none a hane ha, labelKey?_inf_of_specKeyNum_none b hbne hb]
    rfl

/-- Witness for label_ordering_rule, first conjunct, on two numeric labels. -/
theorem label_ordering_rule_witness :
    labelLE "3 Smith" "10 Jones" =
      (decide ((3 : ℕ) < 10) || (decide ((3 : ℕ) = 10) && strLE "3 Smith" "10 Jones")) :=
  label_ordering_rule.1 "3 Smith" "10 Jones" 3 10 (by decide) (by decide)

/-- Claim C9: the sort key is partial: it is defined exactly on non-empty
labels whose text up to the first space parses as an integer whenever the
first character is a digit; an empty label and a digit-led non-numeric
token such as the second example both make it raise, and a sort succeeds
exactly when every key is defined. -/
theorem label_key_partiality :
    labelKey? "" = none ∧
    labelKey? "3rd Reading" = none ∧
    (∀ s : String, (labelKey? s).isSome ↔
      (s.data ≠ [] ∧ ∀ c, s.data.head? = some c → c.isDigit = true →
        (pyIntDigits? (pyTok s)).isSome)) ∧
    (∀ ls : List String, (sortLabels ls).isSome ↔ ∀ l ∈ ls, (labelKey? l).isSome) := by
  refine ⟨by decide, by decide, ?_, sortLabels_isSome_iff⟩
  intro s
  cases hd : s.data with
  | nil =>
    have hk : labelKey? s = none := by unfold labelKey?; rw [hd]
    simp [hk, hd]
  | cons c rest =>
    have hk : labelKey? s =
        if c.isDigit then (pyIntDigits? (pyTok s)).map some else some none := by
      unfold labelKey?
      rw [hd]
    by_cases hc : c.isDigit
    · rw [hk, if_pos hc]
      constructor
      · intro hsome
        refine ⟨List.cons_ne_nil c rest, ?_⟩
        intro c2 hc2 _
        simpa using hsome
      · rintro ⟨-, hdg⟩
        have := hdg c rfl hc
        simpa using this
    · rw [hk, if_neg hc]
      constructor
      · intro _
        refine ⟨List.cons_ne_nil c rest, ?_⟩
        intro c2 hc2 hcd
        have : c = c2 := Option.some.inj hc2
        rw [← this] at hcd
        exact absurd hcd hc
      · intro _
        rfl

/-- Witness for label_key_partiality, last conjunct, on a singleton list. -/
theorem label_key_partiality_witness :
    (sortLabels ["3 Smith"]).isSome ↔ ∀ l ∈ ["3 Smith"], (labelKey? l).isSome :=
  label_key_partiality.2.2.2 ["3 Smith"]

/-- Minimal JSON value model covering the shapes the script touches. -/
inductive Json where
  | null : Json
  | bool : Bool → Json
  | num : Int → Json
  | str : String → Json
  | arr : List Json → Json
  | obj : List (String × Json) → Json

/-- Python r[k] on a loaded JSON value: the binding of key k when r is an
object holding k; none models the raised KeyError, or the TypeError of
indexing a non-object with a string. -/
def Json.get? : Json → String → Option Json
  | .obj kvs, k => kvs.lookup k
  | _, _ => none

/-- The cosponsors field is iterated with range(len(..)) and integer
indexing, which walks exactly the elements of a JSON array in order;
anything but an array is modelled as a failure. -/
def Json.asArr? : Json → Option (List Json)
  | .arr xs => some xs
  | _ => none

/-- One row of the DataFrame built by filter_json_to_frame: the Sponsor,
Cosponsor and Bill column entries for one record. -/
structure FrameRow where
  sponsor : Json
  cosponsors : List Json
  bill : Json

/-- The name field of every co-sponsor entry, in order; a missing name
aborts the whole row. -/
def cosponsorNames : List Json → Option (List Json)
  | [] => some []
  | c :: cs =>
    match c.get? "name", cosponsorNames cs with
    | some n, some rest => some (n :: rest)
    | _, _ => none

/-- One generator element of filter_json_to_frame: the tuple of
r sponsor name, the list of cosponsor names, and r bill_id, evaluated in
that order; none models the attribute/key error the script does not catch. -/
def extractRow (r : Json) : Option FrameRow :=
  match (r.get? "sponsor").bind (fun sp => sp.get? "name") with
  | none => none
  | some sname =>
    match (r.get? "cosponsors").bind Json.asArr? with
    | none => none
    | some cos =>
      match cosponsorNames cos with
      | none => none
      | some names =>
        match r.get? "bill_id" with
        | none => none
        | some bill => some ⟨sname, names, bill⟩

/-- Embedding of filter_json_to_frame: one projected row per record, in
input order; the first failing record aborts the whole call with no
partial table (pandas consumes the generator before building the frame). -/
def filter_json_to_frame : List Json → Option (List FrameRow)
  | [] => some []
  | r :: rs =>
    match extractRow r, filter_json_to_frame rs with
    | some row, some rest => some (row :: rest)
    | _, _ => none

theorem filter_some_spec :
    ∀ (rows : List Json) (out : List FrameRow), filter_json_to_frame rows = some out →
      out.length = rows.length ∧ ∀ i : ℕ, out[i]? = (rows[i]?).bind extractRow
  | [], out, h => by
    cases h
    exact ⟨rfl, fun i => by simp⟩
  | r :: rs, out, h => by
    unfold filter_json_to_frame at h
    cases he : extractRow r with
    | none => rw [he] at h; exact Option.noConfusion h
    | some row =>
      cases hf : filter_json_to_frame rs with
      | none => rw [he, hf] at h; exact Option.noConfusion h
      | some rest =>
        rw [he, hf] at h
        cases h
        obtain ⟨hlen, hidx⟩ := filter_some_spec rs rest hf
        refine ⟨by simp [hlen], ?_⟩
        intro i
        cases i with
        | zero => simp [he]
        | succ j => simp [hidx j]

theorem filter_fails_of_bad_row :
    ∀ (rows : List Json) (r : Json), r ∈ rows → extractRow r = none →
      filter_json_to_frame rows = none
  | [], r, hr, _ => absurd hr (List.not_mem_nil r)
  | q :: rs, r, hr, hbad => by
    unfold filter_json_to_frame
    rcases List.mem_cons.mp hr with rfl | hmem
    · rw [hbad]
    · cases he : extractRow q with
      | none => rfl
      | some row => rw [filter_fails_of_bad_row rs r hmem hbad]

/-- Claim C6: a record missing any expected field makes the table builder
fail with no partial table (the error propagates uncaught); otherwise it
returns one row per record with output order matching input order, as
witnessed positionally; and in particular one well-formed sponsor and
cosponsors but no bill_id field fails. -/
theorem table_builder_correct :
    (∀ (rows : List Json) (out : List FrameRow), filter_json_to_frame rows = some out →
      out.length = rows.length ∧ ∀ i : ℕ, out[i]? = (rows[i]?).bind extractRow) ∧
    (∀ (rows : List Json) (r : Json), r ∈ rows → extractRow r = none →
      filter_json_to_frame rows = none) ∧
    filter_json_to_frame
      [Json.obj [("sponsor", Json.obj [("name", Json.str "A")]),
        ("cosponsors", Json.arr [])]] = none :=
  ⟨filter_some_spec, filter_fails_of_bad_row, rfl⟩

/-- Witness for table_builder_correct, second conjunct, on a record that is
not even an object. -/
theorem table_builder_correct_witness :
    filter_json_to_frame [Json.num 1] = none :=
  table_builder_correct.2.1 [Json.num 1] (Json.num 1) (List.mem_cons_self _ _) rfl

/-- The href filter of get_links: the href attribute value starts with the
one-character needle s, that is, its first character is the letter s. -/
def hrefSelected (x : String) : Bool :=
  match x.data with
  | [] => false
  | c :: _ => c == 's'

/-- The candidate links get_links collects from the index page, modelled by
the list of anchor href strings BeautifulSoup finds (the HTTP fetch and
HTML parse are external I/O): the hrefs starting with s, in page order. -/
def select_links (hrefs : List String) : List String :=
  hrefs.filter hrefSelected

/-- Embedding of get_links: keep the candidate hrefs, truncate to the first
10, and fetch each one (get_single_vote is modelled by the fetch
parameter). -/
def get_links (fetch : String → Json) (hrefs : List String) : List Json :=
  ((select_links hrefs).take 10).map fetch

/-- Claim C7: get_links selects exactly the anchor hrefs beginning with the
prefix character s, in page order, and fetches only the first 10 of them
(fewer when fewer qualify). -/
theorem fetcher_links :
    (∀ (hrefs : List String) (l : String),
      l ∈ select_links hrefs ↔ l ∈ hrefs ∧ hrefSelected l = true) ∧
    (∀ hrefs : List String, (select_links hrefs).Sublist hrefs) ∧
    (∀ (fetch : String → Json) (hrefs : List String),
      get_links fetch hrefs = ((select_links hrefs).take 10).map fetch) ∧
    (∀ (fetch : String → Json) (hrefs : List String),
      (get_links fetch hrefs).length = min 10 (select_links hrefs).length) := by
  refine ⟨?_, ?_, fun _ _ => rfl, ?_⟩
  · intro hrefs l
    simp [select_links, List.mem_filter]
  · intro hrefs
    exact List.filter_sublist hrefs
  · intro fetch hrefs
    simp [get_links, List.length_take]

/-- Witness for fetcher_links, first conjunct, on a two-element page. -/
theorem fetcher_links_witness :
    "s100" ∈ select_links ["s100", "index.html"] ↔
      ("s100" ∈ ["s100", "index.html"] ∧ hrefSelected "s100" = true) :=
  fetcher_links.1 ["s100", "index.html"] "s100"
